import Mathlib

/-!
Verification development for the room/connection state machine of
`src/app/main.py` (a WebSocket signaling relay).

The embedding is shallow: the global `rooms` dict becomes an insertion-ordered
association list `Registry`; a room's `users` dict becomes the insertion-ordered
list of its keys (Python 3.7+ dicts preserve insertion order; re-assigning an
existing key keeps its position); sending on a websocket is modelled by an
`Event` trace, with a parameter `fails : String → Bool` saying whose sends
raise (the bare `except:` around `send_text` in `broadcast` / `send_to_user`).
JSON encoding/decoding is out of scope per the design (a given serialization
primitive): a decoded message is a `Data` record of the fields the code reads
via `data.get`, and an undecodable text is `Inbound.malformed`.

An uncaught exception escaping the handler (anything other than
`WebSocketDisconnect`, which is the only exception the code catches around the
message loop) is modelled as `LoopRes.fatal`: the message loop stops and no
disconnect cleanup runs.

Modelling note: inside the message loop the code uses the `room` dict object
captured at connect time, while `broadcast` / `send_to_user` re-look the room
up in `rooms`. The two agree as long as the room has not been deleted during
the connection's lifetime; `handleMessage` reads the room from the registry,
and when the room id is absent it performs no registry mutation and emits no
event (matching the code: `rooms.get` returns `None` and the orphaned dict is
empty, so every branch is a no-op on observable state).
-/

namespace Signaling

/-- One room of the registry, mirroring
`{ "users": {...}, "host": ..., "password": ..., "locked": ... }`
(`main.py` lines 25-30). `users` is the insertion-ordered list of keys of the
`users` dict. -/
structure Room where
  users : List String
  host : String
  password : String
  locked : Bool
deriving Repr, DecidableEq

/-- The global `rooms : Dict[str, Dict[str, Any]]` as an insertion-ordered
association list. -/
abbrev Registry := List (String × Room)

/-- The fields the code reads from a decoded message via `data.get(...)`:
`type`, `target`, `message`, `password`, `kickId`. A missing field is `none`
(Python `None`). -/
structure Data where
  type? : Option String
  target? : Option String
  message? : Option String
  password? : Option String
  kickId? : Option String
deriving Repr, DecidableEq

/-- One received text frame: either undecodable (where `json.loads` raises) or
decoded, keeping the raw text because relays forward it verbatim. -/
inductive Inbound where
  | malformed (raw : String)
  | decoded (raw : String) (d : Data)
deriving Repr, DecidableEq

/-- An outbound payload the server writes to some connection. Constructors
mirror the dicts built in `main.py` (each field listed is a JSON key actually
present in the payload; `userLeft` takes an `Option` host because the kick
path omits the `host` key while `handle_disconnect` includes it). -/
inductive Msg where
  | userJoined (userId : String) (users : List String) (host : String)
  | userLeft (userId : String) (host : Option String)
  | roomLocked (locked : Bool)
  | errorMsg (message : String)
  | kicked
  | chat (userId : String) (message : Option String)
  | raiseHand (userId : String)
  | relay (raw : String)
  | fallback (d : Data)
deriving Repr, DecidableEq

/-- Externally observable connection effects: a successful `send_text` to the
connection of `uid`, or a `close` of that connection. A failed send produces
no event (the text was not delivered). -/
inductive Event where
  | sent (uid : String) (m : Msg)
  | closed (uid : String)
deriving Repr, DecidableEq

/-- How one iteration of the message loop ends: `ok` (loop continues) or
`fatal` (an exception other than `WebSocketDisconnect` escaped the handler:
the loop stops and `handle_disconnect` is never run). -/
inductive LoopRes where
  | ok
  | fatal
deriving Repr, DecidableEq

/-- Result of processing one step: new registry, emitted events, loop status. -/
structure StepOut where
  st : Registry
  events : List Event
  res : LoopRes
deriving Repr, DecidableEq

/-- Registry lookup, `rooms.get(room_id)` / `room_id in rooms`. -/
def lookupRoom : Registry → String → Option Room
  | [], _ => none
  | (k, r) :: rest, rid => if rid = k then some r else lookupRoom rest rid

/-- `rooms[room_id] = r`: replace the first entry with this key, or append a
new entry (dict insertion order). -/
def setRoom : Registry → String → Room → Registry
  | [], rid, r => [(rid, r)]
  | (k, r0) :: rest, rid, r =>
      if k = rid then (k, r) :: rest else (k, r0) :: setRoom rest rid r

/-- `del rooms[room_id]`. -/
def eraseRoom : Registry → String → Registry
  | [], _ => []
  | (k, r0) :: rest, rid =>
      if k = rid then rest else (k, r0) :: eraseRoom rest rid

/-- `room["users"][user_id] = websocket` on the key list: an existing key keeps
its position, a new key is appended. -/
def addUser (users : List String) (uid : String) : List String :=
  if uid ∈ users then users else users ++ [uid]

/-- `if uid == exclude: continue` where `exclude` may be `None`. -/
def excludedB (exclude : Option String) (u : String) : Bool :=
  match exclude with
  | none => false
  | some e => u == e

/-- `broadcast(room_id, message, exclude)` (`main.py` lines 112-132): look the
room up; send to every non-excluded member in order; a member whose send
raises is collected in `to_remove` and deleted from `users` after the loop. -/
def broadcast (st : Registry) (rid : String) (m : Msg) (exclude : Option String)
    (fails : String → Bool) : Registry × List Event :=
  match lookupRoom st rid with
  | none => (st, [])
  | some room =>
      (setRoom st rid
        { room with users := room.users.filter (fun u => excludedB exclude u || !(fails u)) },
       (room.users.filter (fun u => !(excludedB exclude u) && !(fails u))).map
         (fun u => Event.sent u m))

/-- `send_to_user(room_id, user_id, message)` (`main.py` lines 135-141): send
to that member if present; if the send raises, delete the member instead. -/
def sendToUser (st : Registry) (rid tgt : String) (m : Msg)
    (fails : String → Bool) : Registry × List Event :=
  match lookupRoom st rid with
  | none => (st, [])
  | some room =>
      if tgt ∈ room.users then
        if fails tgt then
          (setRoom st rid { room with users := room.users.erase tgt }, [])
        else (st, [Event.sent tgt m])
      else (st, [])

/-- Package a registry/event pair as a loop iteration that continues. -/
def toStep (p : Registry × List Event) : StepOut := ⟨p.1, p.2, LoopRes.ok⟩

/-- The admission part of `websocket_endpoint` once `room = rooms[room_id]`
is in hand (`main.py` lines 34-47): reject a non-host joining a locked room
with an `error` payload and a close, otherwise record membership and
broadcast `user-joined` with the updated ordered member list and the host. -/
def joinRoom (st : Registry) (rid uid : String) (room : Room)
    (fails : String → Bool) : Registry × List Event :=
  if room.locked = true ∧ uid ≠ room.host then
    (st, [Event.sent uid (Msg.errorMsg "Room is locked"), Event.closed uid])
  else
    broadcast (setRoom st rid { room with users := addUser room.users uid })
      rid (Msg.userJoined uid (addUser room.users uid) room.host) none fails

/-- The prologue of `websocket_endpoint` (`main.py` lines 20-47): accept, then
create the room if absent (first joiner becomes host, `locked=False`), then
run the admission check against the room now stored under `room_id`. -/
def connect (st : Registry) (rid uid : String) (fails : String → Bool) :
    Registry × List Event :=
  match lookupRoom st rid with
  | none =>
      joinRoom (setRoom st rid ⟨[], uid, "", false⟩) rid uid ⟨[], uid, "", false⟩ fails
  | some room => joinRoom st rid uid room fails

/-- `offer` / `answer` / `ice-candidate`: direct relay of the raw text to
`data.get("target")`; a missing target is never a dict key, so nothing
happens. -/
def relayStep (st : Registry) (rid : String) (d : Data) (raw : String)
    (fails : String → Bool) : StepOut :=
  match d.target? with
  | none => ⟨st, [], LoopRes.ok⟩
  | some tgt => toStep (sendToUser st rid tgt (Msg.relay raw) fails)

/-- `chat`: broadcast with the sender id attached. -/
def chatStep (st : Registry) (rid uid : String) (d : Data)
    (fails : String → Bool) : StepOut :=
  toStep (broadcast st rid (Msg.chat uid d.message?) none fails)

/-- `raise-hand`: broadcast with the sender id attached. -/
def raiseHandStep (st : Registry) (rid uid : String)
    (fails : String → Bool) : StepOut :=
  toStep (broadcast st rid (Msg.raiseHand uid) none fails)

/-- `set-password` (`main.py` lines 75-82): host only; set the password
(default `""`), set `locked`, broadcast `room-locked`. Silently ignored for a
non-host sender. -/
def setPasswordStep (st : Registry) (rid uid : String) (room : Room) (d : Data)
    (fails : String → Bool) : StepOut :=
  if uid = room.host then
    toStep (broadcast
      (setRoom st rid { room with password := d.password?.getD "", locked := true })
      rid (Msg.roomLocked true) none fails)
  else ⟨st, [], LoopRes.ok⟩

/-- `unlock-room` (`main.py` lines 84-90): host only; clear `locked`,
broadcast `room-locked` with `locked=false`. -/
def unlockStep (st : Registry) (rid uid : String) (room : Room)
    (fails : String → Bool) : StepOut :=
  if uid = room.host then
    toStep (broadcast (setRoom st rid { room with locked := false })
      rid (Msg.roomLocked false) none fails)
  else ⟨st, [], LoopRes.ok⟩

/-- The tail of the kick branch after the `kicked` unicast, taking the
unicast's result. `room["users"][kick_id].close()` comes next: if the unicast
failed and lazily deleted the target, that subscript raises an uncaught
`KeyError` (`fatal`); otherwise the target is closed, deleted, and a
`user-left` payload carrying only `userId` (no host key) is broadcast. -/
def kickAfterSend (rid k : String) (fails : String → Bool)
    (p1 : Registry × List Event) : StepOut :=
  match lookupRoom p1.1 rid with
  | none => ⟨p1.1, p1.2, LoopRes.fatal⟩
  | some r1 =>
      if k ∈ r1.users then
        ⟨(broadcast (setRoom p1.1 rid { r1 with users := r1.users.erase k })
            rid (Msg.userLeft k none) none fails).1,
         p1.2 ++ Event.closed k ::
           (broadcast (setRoom p1.1 rid { r1 with users := r1.users.erase k })
              rid (Msg.userLeft k none) none fails).2,
         LoopRes.ok⟩
      else ⟨p1.1, p1.2, LoopRes.fatal⟩

/-- `kick` (`main.py` lines 92-102): host only, target must be a member;
then unicast `kicked` and continue with `kickAfterSend`. -/
def kickStep (st : Registry) (rid uid : String) (room : Room) (d : Data)
    (fails : String → Bool) : StepOut :=
  if uid = room.host then
    match d.kickId? with
    | none => ⟨st, [], LoopRes.ok⟩
    | some k =>
        if k ∈ room.users then
          kickAfterSend rid k fails (sendToUser st rid k Msg.kicked fails)
        else ⟨st, [], LoopRes.ok⟩
  else ⟨st, [], LoopRes.ok⟩

/-- Fallback (`main.py` lines 104-106): broadcast the decoded payload verbatim
to everyone except the sender. -/
def fallbackStep (st : Registry) (rid uid : String) (d : Data)
    (fails : String → Bool) : StepOut :=
  toStep (broadcast st rid (Msg.fallback d) (some uid) fails)

/-- One iteration of the `while True` message loop (`main.py` lines 49-106).
An undecodable text makes `json.loads` raise `json.JSONDecodeError`; the only
handler around the loop is `except WebSocketDisconnect`, so the exception
escapes and the handler dies without cleanup (`fatal`). A decoded message is
dispatched on `data.get("type")`; a missing `type` (Python `None`) matches no
branch and falls through to the fallback broadcast. -/
def handleMessage (st : Registry) (rid uid : String) (inb : Inbound)
    (fails : String → Bool) : StepOut :=
  match inb with
  | .malformed _ => ⟨st, [], LoopRes.fatal⟩
  | .decoded raw d =>
      match lookupRoom st rid with
      | none => ⟨st, [], LoopRes.ok⟩
      | some room =>
          match d.type? with
          | none => fallbackStep st rid uid d fails
          | some t =>
              if t = "offer" ∨ t = "answer" ∨ t = "ice-candidate" then
                relayStep st rid d raw fails
              else if t = "chat" then chatStep st rid uid d fails
              else if t = "raise-hand" then raiseHandStep st rid uid fails
              else if t = "set-password" then setPasswordStep st rid uid room d fails
              else if t = "unlock-room" then unlockStep st rid uid room fails
              else if t = "kick" then kickStep st rid uid room d fails
              else fallbackStep st rid uid d fails

/-- `handle_disconnect` (`main.py` lines 148-165): remove the member if
present; if the host left, promote `next(iter(room["users"]))` (the first
remaining key in insertion order) or delete the now-empty room; if the room
survives, broadcast `user-left` with the departed id and the current host. -/
def handleDisconnect (st : Registry) (rid uid : String)
    (fails : String → Bool) : Registry × List Event :=
  match lookupRoom st rid with
  | none => (st, [])
  | some room =>
      if uid ∈ room.users then
        if uid = room.host then
          match room.users.erase uid with
          | [] => (eraseRoom st rid, [])
          | h :: t =>
              broadcast (setRoom st rid { room with users := h :: t, host := h })
                rid (Msg.userLeft uid (some h)) none fails
        else
          broadcast (setRoom st rid { room with users := room.users.erase uid })
            rid (Msg.userLeft uid (some room.host)) none fails
      else (st, [])

/-- One observable operation of the system: a connection joining, one received
text frame on an admitted connection, or a `WebSocketDisconnect`. -/
inductive Op where
  | join (rid uid : String)
  | message (rid uid : String) (inb : Inbound)
  | disconnect (rid uid : String)
deriving Repr, DecidableEq

/-- Run one operation. -/
def runOp (st : Registry) (op : Op) (fails : String → Bool) : StepOut :=
  match op with
  | .join rid uid => toStep (connect st rid uid fails)
  | .message rid uid inb => handleMessage st rid uid inb fails
  | .disconnect rid uid => toStep (handleDisconnect st rid uid fails)

/-- Spec §3 invariants 1 and 2 for a single room: non-empty membership and the
host a current member. -/
abbrev RoomOK (r : Room) : Prop := r.users ≠ [] ∧ r.host ∈ r.users

/-- The registry keys, for the structural dict property of unique keys. -/
def keysOf (st : Registry) : List String := st.map Prod.fst

/-- The registry-wide invariant: dict keys are unique, and every room present
satisfies `RoomOK`. -/
def Inv (st : Registry) : Prop :=
  (keysOf st).Nodup ∧ ∀ rid r, lookupRoom st rid = some r → RoomOK r

/-- Side condition under which host membership survives a kick: the message is
not a kick naming the sender's own id (the code lets the host kick itself). -/
def NoSelfKick : Op → Prop
  | .message _ uid (.decoded _ d) => d.type? = some "kick" → d.kickId? ≠ some uid
  | _ => True

/-- A failure pattern where every send succeeds. -/
def noFail : String → Bool := fun _ => false

/-- A failure pattern where every send raises. -/
def allFail : String → Bool := fun _ => true

/-- Registry after user `A` connects to fresh room `r`. -/
def stA : Registry := (connect [] "r" "A" noFail).1

/-- Registry after users `A`, `B` connect to room `r` in that order. -/
def stAB : Registry := (connect stA "r" "B" noFail).1

/-- Registry after users `A`, `B`, `C` connect to room `r` in that order. -/
def stABC : Registry := (connect stAB "r" "C" noFail).1

/-- Registry after host `A` locks room `r` with password `pw`. -/
def stLocked : Registry :=
  (runOp stA (Op.message "r" "A"
    (Inbound.decoded "s" ⟨some "set-password", none, none, some "pw", none⟩)) noFail).st

/-- Room value of `stA`. -/
def rA : Room := ⟨["A"], "A", "", false⟩

/-- Room value of `stAB`. -/
def rAB : Room := ⟨["A", "B"], "A", "", false⟩

/-- Room value of `stABC`. -/
def rABC : Room := ⟨["A", "B", "C"], "A", "", false⟩

/-- Room value of `stLocked`. -/
def rLocked : Room := ⟨["A"], "A", "pw", true⟩

/-- A decoded `chat` message. -/
def dChatHi : Data := ⟨some "chat", none, some "hi", none, none⟩

/-- A decoded `kick` naming `A`. -/
def dKickA : Data := ⟨some "kick", none, none, none, some "A"⟩

/-- A decoded `kick` naming `B`. -/
def dKickB : Data := ⟨some "kick", none, none, none, some "B"⟩

/-- A decoded `unlock-room` message. -/
def dUnlock : Data := ⟨some "unlock-room", none, none, none, none⟩

/-- A decoded `set-password` message with password `pw`. -/
def dSetPw : Data := ⟨some "set-password", none, none, some "pw", none⟩

/-- A decoded `ice-candidate` message targeting `B`. -/
def dIceToB : Data := ⟨some "ice-candidate", some "B", none, none, none⟩

theorem lookupRoom_setRoom (st : Registry) (rid rid' : String) (r : Room) :
    lookupRoom (setRoom st rid r) rid' =
      if rid' = rid then some r else lookupRoom st rid' := by
  induction st with
  | nil =>
      by_cases h : rid' = rid <;> simp [setRoom, lookupRoom, h]
  | cons p rest ih =>
      obtain ⟨k, r0⟩ := p
      by_cases hk : k = rid
      · subst hk
        by_cases h : rid' = k <;> simp [setRoom, lookupRoom, h]
      · by_cases h : rid' = k
        · subst h
          simp [setRoom, lookupRoom, hk, Ne.symm hk]
        · simp [setRoom, lookupRoom, hk, h, ih]

theorem setRoom_lookup_eq (st : Registry) (rid : String) (r : Room)
    (h : lookupRoom st rid = some r) : setRoom st rid r = st := by
  induction st with
  | nil => simp [lookupRoom] at h
  | cons p rest ih =>
      obtain ⟨k, r0⟩ := p
      by_cases hk : rid = k
      · subst hk
        simp [lookupRoom] at h
        simp [setRoom, h]
      · simp [lookupRoom, hk] at h
        have hk' : ¬ k = rid := fun hkr => hk hkr.symm
        simp [setRoom, hk', ih h]

theorem setRoom_setRoom (st : Registry) (rid : String) (r r' : Room) :
    setRoom (setRoom st rid r) rid r' = setRoom st rid r' := by
  induction st with
  | nil => simp [setRoom]
  | cons p rest ih =>
      obtain ⟨k, r0⟩ := p
      by_cases hk : k = rid <;> simp [setRoom, hk, ih]

theorem lookupRoom_eraseRoom_ne (st : Registry) (rid rid' : String)
    (h : rid' ≠ rid) : lookupRoom (eraseRoom st rid) rid' = lookupRoom st rid' := by
  induction st with
  | nil => simp [eraseRoom]
  | cons p rest ih =>
      obtain ⟨k, r0⟩ := p
      by_cases hk : k = rid
      · subst hk
        simp [eraseRoom, lookupRoom, h]
      · by_cases h' : rid' = k <;> simp [eraseRoom, lookupRoom, hk, h', ih]

theorem lookupRoom_eq_none_of_not_mem (st : Registry) (rid : String)
    (h : rid ∉ keysOf st) : lookupRoom st rid = none := by
  induction st with
  | nil => simp [lookupRoom]
  | cons p rest ih =>
      obtain ⟨k, r0⟩ := p
      simp [keysOf] at h
      simp [lookupRoom, h.1, ih (by simp [keysOf, h.2])]

theorem lookupRoom_eraseRoom_self (st : Registry) (rid : String)
    (h : (keysOf st).Nodup) : lookupRoom (eraseRoom st rid) rid = none := by
  induction st with
  | nil => simp [eraseRoom, lookupRoom]
  | cons p rest ih =>
      obtain ⟨k, r0⟩ := p
      simp [keysOf, List.nodup_cons] at h
      by_cases hk : k = rid
      · subst hk
        simpa [eraseRoom] using
          lookupRoom_eq_none_of_not_mem rest k (by simpa [keysOf] using h.1)
      · have hne : ¬ rid = k := fun h' => hk h'.symm
        simp [eraseRoom, hk, lookupRoom, hne, ih h.2]

theorem lookupRoom_mem (st : Registry) (rid : String) (r : Room)
    (h : lookupRoom st rid = some r) : (rid, r) ∈ st := by
  induction st with
  | nil => simp [lookupRoom] at h
  | cons p rest ih =>
      obtain ⟨k, r0⟩ := p
      by_cases hk : rid = k
      · subst hk
        simp [lookupRoom] at h
        simp [h]
      · simp [lookupRoom, hk] at h
        simp [ih h]

theorem keysOf_setRoom (st : Registry) (rid : String) (r : Room) :
    keysOf (setRoom st rid r) =
      if rid ∈ keysOf st then keysOf st else keysOf st ++ [rid] := by
  induction st with
  | nil => simp [setRoom, keysOf]
  | cons p rest ih =>
      obtain ⟨k, r0⟩ := p
      by_cases hk : k = rid
      · subst hk
        simp [setRoom, keysOf]
      · have hne : rid ≠ k := fun h => hk h.symm
        simp only [setRoom, if_neg hk, keysOf, List.map_cons] at ih ⊢
        rw [ih]
        by_cases hmem : rid ∈ List.map Prod.fst rest
        · simp [hmem, hne]
        · simp [hmem, hne]

theorem nodup_keysOf_setRoom (st : Registry) (rid : String) (r : Room)
    (h : (keysOf st).Nodup) : (keysOf (setRoom st rid r)).Nodup := by
  rw [keysOf_setRoom]
  by_cases hmem : rid ∈ keysOf st
  · simpa [hmem] using h
  · rw [if_neg hmem]
    refine List.Nodup.append h (List.nodup_singleton rid) ?_
    intro x hx hx'
    simp at hx'
    exact hmem (hx' ▸ hx)

theorem keysOf_eraseRoom_sublist (st : Registry) (rid : String) :
    (keysOf (eraseRoom st rid)).Sublist (keysOf st) := by
  induction st with
  | nil => simp [eraseRoom, keysOf]
  | cons p rest ih =>
      obtain ⟨k, r0⟩ := p
      by_cases hk : k = rid
      · simp [eraseRoom, hk, keysOf]
      · simpa [eraseRoom, hk, keysOf] using List.Sublist.cons₂ k ih

theorem nodup_keysOf_eraseRoom (st : Registry) (rid : String)
    (h : (keysOf st).Nodup) : (keysOf (eraseRoom st rid)).Nodup :=
  (keysOf_eraseRoom_sublist st rid).nodup h

theorem broadcast_absent (st : Registry) (rid : String) (m : Msg)
    (exclude : Option String) (fails : String → Bool)
    (h : lookupRoom st rid = none) : broadcast st rid m exclude fails = (st, []) := by
  simp [broadcast, h]

theorem broadcast_present (st : Registry) (rid : String) (m : Msg)
    (exclude : Option String) (fails : String → Bool) (room : Room)
    (h : lookupRoom st rid = some room) :
    broadcast st rid m exclude fails =
      (setRoom st rid
        { room with users := room.users.filter (fun u => excludedB exclude u || !(fails u)) },
       (room.users.filter (fun u => !(excludedB exclude u) && !(fails u))).map
         (fun u => Event.sent u m)) := by
  simp [broadcast, h]

theorem broadcast_noFails (st : Registry) (rid : String) (m : Msg)
    (fails : String → Bool) (room : Room)
    (h : lookupRoom st rid = some room)
    (hf : ∀ u ∈ room.users, fails u = false) :
    broadcast st rid m none fails =
      (st, room.users.map (fun u => Event.sent u m)) := by
  rw [broadcast_present st rid m none fails room h]
  have hkeep : room.users.filter (fun u => excludedB none u || !(fails u)) = room.users := by
    rw [List.filter_eq_self]
    intro u hu
    simp [excludedB, hf u hu]
  have hsend : room.users.filter (fun u => !(excludedB none u) && !(fails u)) = room.users := by
    rw [List.filter_eq_self]
    intro u hu
    simp [excludedB, hf u hu]
  rw [hkeep, hsend]
  have : ({ room with users := room.users } : Room) = room := rfl
  rw [this, setRoom_lookup_eq st rid room h]

theorem broadcast_fst_lookup_ne (st : Registry) (rid rid' : String) (m : Msg)
    (exclude : Option String) (fails : String → Bool) (h : rid' ≠ rid) :
    lookupRoom (broadcast st rid m exclude fails).1 rid' = lookupRoom st rid' := by
  cases hl : lookupRoom st rid with
  | none => rw [broadcast_absent st rid m exclude fails hl]
  | some room =>
      rw [broadcast_present st rid m exclude fails room hl]
      simp [lookupRoom_setRoom, h]

theorem broadcast_fst_lookup_self (st : Registry) (rid : String) (m : Msg)
    (exclude : Option String) (fails : String → Bool) (room : Room)
    (h : lookupRoom st rid = some room) :
    lookupRoom (broadcast st rid m exclude fails).1 rid =
      some { room with users := room.users.filter (fun u => excludedB exclude u || !(fails u)) } := by
  rw [broadcast_present st rid m exclude fails room h]
  simp [lookupRoom_setRoom]

theorem broadcast_events_form (st : Registry) (rid : String) (m : Msg)
    (exclude : Option String) (fails : String → Bool) :
    ∀ e ∈ (broadcast st rid m exclude fails).2, ∃ v, e = Event.sent v m := by
  intro e he
  cases hl : lookupRoom st rid with
  | none => rw [broadcast_absent st rid m exclude fails hl] at he; simp at he
  | some room =>
      rw [broadcast_present st rid m exclude fails room hl] at he
      simp only [List.mem_map] at he
      obtain ⟨v, _, hv⟩ := he
      exact ⟨v, hv.symm⟩

theorem sendToUser_absent (st : Registry) (rid tgt : String) (m : Msg)
    (fails : String → Bool) (h : lookupRoom st rid = none) :
    sendToUser st rid tgt m fails = (st, []) := by
  simp [sendToUser, h]

theorem sendToUser_delivered (st : Registry) (rid tgt : String) (m : Msg)
    (fails : String → Bool) (room : Room) (h : lookupRoom st rid = some room)
    (hmem : tgt ∈ room.users) (hok : fails tgt = false) :
    sendToUser st rid tgt m fails = (st, [Event.sent tgt m]) := by
  simp [sendToUser, h, hmem, hok]

theorem sendToUser_no_target (st : Registry) (rid tgt : String) (m : Msg)
    (fails : String → Bool) (room : Room) (h : lookupRoom st rid = some room)
    (hmem : tgt ∉ room.users) :
    sendToUser st rid tgt m fails = (st, []) := by
  simp [sendToUser, h, hmem]

/-- A room invariant transfer helper: every room visible after `setRoom` is
either the written room or one already visible. -/
theorem inv_setRoom (st : Registry) (rid : String) (r : Room)
    (hinv : Inv st) (hok : RoomOK r) : Inv (setRoom st rid r) := by
  refine ⟨nodup_keysOf_setRoom st rid r hinv.1, ?_⟩
  intro rid' r' h
  rw [lookupRoom_setRoom] at h
  by_cases he : rid' = rid
  · rw [if_pos he] at h
    cases h
    exact hok
  · rw [if_neg he] at h
    exact hinv.2 rid' r' h

theorem inv_eraseRoom (st : Registry) (rid : String) (hinv : Inv st) :
    Inv (eraseRoom st rid) := by
  refine ⟨nodup_keysOf_eraseRoom st rid hinv.1, ?_⟩
  intro rid' r' h
  by_cases he : rid' = rid
  · subst he
    rw [lookupRoom_eraseRoom_self st rid' hinv.1] at h
    cases h
  · rw [lookupRoom_eraseRoom_ne st rid rid' he] at h
    exact hinv.2 rid' r' h

/-- `Inv` for a concrete registry, checked entrywise. -/
theorem inv_of_entries (st : Registry) (h1 : (keysOf st).Nodup)
    (h2 : ∀ p ∈ st, RoomOK p.2) : Inv st :=
  ⟨h1, fun rid r h => h2 (rid, r) (lookupRoom_mem st rid r h)⟩

theorem invAB : Inv stAB :=
  inv_of_entries stAB (by decide) (by decide)

theorem broadcast_fst_noFails_all (st : Registry) (rid : String) (m : Msg)
    (exclude : Option String) (fails : String → Bool)
    (hf : ∀ u, fails u = false) :
    (broadcast st rid m exclude fails).1 = st := by
  cases hl : lookupRoom st rid with
  | none => rw [broadcast_absent st rid m exclude fails hl]
  | some room =>
      rw [broadcast_present st rid m exclude fails room hl]
      have hkeep :
          room.users.filter (fun u => excludedB exclude u || !(fails u)) = room.users := by
        rw [List.filter_eq_self]
        intro u _
        simp [hf u]
      simp only [hkeep]
      exact setRoom_lookup_eq st rid room hl

theorem sendToUser_fst_noFail (st : Registry) (rid tgt : String) (m : Msg)
    (fails : String → Bool) (hok : fails tgt = false) :
    (sendToUser st rid tgt m fails).1 = st := by
  cases hl : lookupRoom st rid with
  | none => simp [sendToUser, hl]
  | some room =>
      by_cases hm : tgt ∈ room.users <;> simp [sendToUser, hl, hm, hok]

theorem mem_addUser_of_mem (l : List String) (uid a : String) (h : a ∈ l) :
    a ∈ addUser l uid := by
  unfold addUser
  split <;> simp [h]

theorem addUser_ne_nil (l : List String) (uid : String) : addUser l uid ≠ [] := by
  unfold addUser
  split
  · next h => exact List.ne_nil_of_mem h
  · simp

theorem inv_joinRoom (st : Registry) (rid uid : String) (room : Room)
    (fails : String → Bool) (hinv : Inv st)
    (hl : lookupRoom st rid = some room) (hf : ∀ u, fails u = false) :
    Inv (joinRoom st rid uid room fails).1 := by
  unfold joinRoom
  split
  · exact hinv
  · rw [broadcast_fst_noFails_all _ _ _ _ _ hf]
    refine inv_setRoom st rid _ hinv ?_
    have hok := hinv.2 rid room hl
    exact ⟨addUser_ne_nil room.users uid, mem_addUser_of_mem room.users uid room.host hok.2⟩

theorem inv_connect (st : Registry) (rid uid : String) (fails : String → Bool)
    (hinv : Inv st) (hf : ∀ u, fails u = false) :
    Inv (connect st rid uid fails).1 := by
  unfold connect
  cases hl : lookupRoom st rid with
  | none =>
      dsimp only
      unfold joinRoom
      rw [if_neg (by simp)]
      rw [broadcast_fst_noFails_all _ _ _ _ _ hf, setRoom_setRoom]
      refine inv_setRoom st rid _ hinv ?_
      refine ⟨addUser_ne_nil [] uid, ?_⟩
      show uid ∈ addUser [] uid
      simp [addUser]
  | some room =>
      dsimp only
      exact inv_joinRoom st rid uid room fails hinv hl hf

theorem inv_kickStep (st : Registry) (rid uid : String) (room : Room) (d : Data)
    (fails : String → Bool) (hinv : Inv st)
    (hl : lookupRoom st rid = some room) (hf : ∀ u, fails u = false)
    (hks : d.kickId? ≠ some uid) :
    Inv (kickStep st rid uid room d fails).st := by
  unfold kickStep
  by_cases hhost : uid = room.host
  · rw [if_pos hhost]
    cases hkid : d.kickId? with
    | none => exact hinv
    | some k =>
        dsimp only
        by_cases hm : k ∈ room.users
        · rw [if_pos hm]
          have hsend := sendToUser_delivered st rid k Msg.kicked fails room hl hm (hf k)
          rw [hsend]
          unfold kickAfterSend
          simp only [hl]
          rw [if_pos hm]
          show Inv (broadcast (setRoom st rid { room with users := room.users.erase k })
            rid (Msg.userLeft k none) none fails).1
          rw [broadcast_fst_noFails_all _ _ _ _ _ hf]
          refine inv_setRoom st rid _ hinv ?_
          have hok := hinv.2 rid room hl
          have hkne : room.host ≠ k := by
            intro he
            apply hks
            rw [hkid, ← he, ← hhost]
          have hhm : room.host ∈ room.users.erase k :=
            (List.mem_erase_of_ne hkne).mpr hok.2
          exact ⟨List.ne_nil_of_mem hhm, hhm⟩
        · rw [if_neg hm]
          exact hinv
  · rw [if_neg hhost]
    exact hinv

theorem inv_handleMessage (st : Registry) (rid uid : String) (inb : Inbound)
    (fails : String → Bool) (hinv : Inv st) (hf : ∀ u, fails u = false)
    (hk : NoSelfKick (Op.message rid uid inb)) :
    Inv (handleMessage st rid uid inb fails).st := by
  cases inb with
  | malformed raw => exact hinv
  | decoded raw d =>
      show Inv (handleMessage st rid uid (Inbound.decoded raw d) fails).st
      unfold handleMessage
      dsimp only
      cases hl : lookupRoom st rid with
      | none => exact hinv
      | some room =>
          dsimp only
          cases ht : d.type? with
          | none =>
              dsimp only
              unfold fallbackStep toStep
              rw [broadcast_fst_noFails_all _ _ _ _ _ hf]
              exact hinv
          | some t =>
              dsimp only
              by_cases h1 : t = "offer" ∨ t = "answer" ∨ t = "ice-candidate"
              · rw [if_pos h1]
                unfold relayStep
                cases htg : d.target? with
                | none => exact hinv
                | some tgt =>
                    show Inv (sendToUser st rid tgt (Msg.relay raw) fails).1
                    rw [sendToUser_fst_noFail _ _ _ _ _ (hf tgt)]
                    exact hinv
              · rw [if_neg h1]
                by_cases h2 : t = "chat"
                · rw [if_pos h2]
                  unfold chatStep toStep
                  rw [broadcast_fst_noFails_all _ _ _ _ _ hf]
                  exact hinv
                · rw [if_neg h2]
                  by_cases h3 : t = "raise-hand"
                  · rw [if_pos h3]
                    unfold raiseHandStep toStep
                    rw [broadcast_fst_noFails_all _ _ _ _ _ hf]
                    exact hinv
                  · rw [if_neg h3]
                    by_cases h4 : t = "set-password"
                    · rw [if_pos h4]
                      unfold setPasswordStep
                      split
                      · show Inv (broadcast _ rid (Msg.roomLocked true) none fails).1
                        rw [broadcast_fst_noFails_all _ _ _ _ _ hf]
                        refine inv_setRoom st rid _ hinv ?_
                        exact hinv.2 rid room hl
                      · exact hinv
                    · rw [if_neg h4]
                      by_cases h5 : t = "unlock-room"
                      · rw [if_pos h5]
                        unfold unlockStep
                        split
                        · show Inv (broadcast _ rid (Msg.roomLocked false) none fails).1
                          rw [broadcast_fst_noFails_all _ _ _ _ _ hf]
                          refine inv_setRoom st rid _ hinv ?_
                          exact hinv.2 rid room hl
                        · exact hinv
                      · rw [if_neg h5]
                        by_cases h6 : t = "kick"
                        · rw [if_pos h6]
                          refine inv_kickStep st rid uid room d fails hinv hl hf ?_
                          exact hk (by rw [ht, h6])
                        · rw [if_neg h6]
                          unfold fallbackStep toStep
                          rw [broadcast_fst_noFails_all _ _ _ _ _ hf]
                          exact hinv

theorem inv_handleDisconnect (st : Registry) (rid uid : String)
    (fails : String → Bool) (hinv : Inv st) (hf : ∀ u, fails u = false) :
    Inv (handleDisconnect st rid uid fails).1 := by
  unfold handleDisconnect
  cases hl : lookupRoom st rid with
  | none => exact hinv
  | some room =>
      dsimp only
      by_cases hmem : uid ∈ room.users
      · rw [if_pos hmem]
        by_cases hhost : uid = room.host
        · rw [if_pos hhost]
          cases herase : room.users.erase uid with
          | nil => exact inv_eraseRoom st rid hinv
          | cons h t =>
              show Inv (broadcast (setRoom st rid { room with users := h :: t, host := h })
                rid (Msg.userLeft uid (some h)) none fails).1
              rw [broadcast_fst_noFails_all _ _ _ _ _ hf]
              exact inv_setRoom st rid _ hinv ⟨List.cons_ne_nil h t, List.mem_cons_self h t⟩
        · rw [if_neg hhost]
          show Inv (broadcast (setRoom st rid { room with users := room.users.erase uid })
            rid (Msg.userLeft uid (some room.host)) none fails).1
          rw [broadcast_fst_noFails_all _ _ _ _ _ hf]
          refine inv_setRoom st rid _ hinv ?_
          have hok := hinv.2 rid room hl
          have hne : room.host ≠ uid := fun he => hhost he.symm
          have hhm : room.host ∈ room.users.erase uid :=
            (List.mem_erase_of_ne hne).mpr hok.2
          exact ⟨List.ne_nil_of_mem hhm, hhm⟩
      · rw [if_neg hmem]
        exact hinv

/-- Master preservation lemma: under no send failures and no self-kick, every
operation preserves the registry invariant. -/
theorem runOp_preserves_inv (st : Registry) (op : Op) (fails : String → Bool)
    (hinv : Inv st) (hf : ∀ u, fails u = false) (hk : NoSelfKick op) :
    Inv (runOp st op fails).st := by
  cases op with
  | join rid uid => exact inv_connect st rid uid fails hinv hf
  | message rid uid inb => exact inv_handleMessage st rid uid inb fails hinv hf hk
  | disconnect rid uid => exact inv_handleDisconnect st rid uid fails hinv hf

theorem invA : Inv stA :=
  inv_of_entries stA (by decide) (by decide)

/-- Claim C1: the code does not satisfy the claim. A member of a live room
sending an undecodable text makes `json.loads` raise `json.JSONDecodeError`;
the only handler around the message loop is `except WebSocketDisconnect`, so
the handler terminates (`LoopRes.fatal`) with no events and no disconnect
cleanup: contrary to the claim the loop does not continue, and the sender is
left behind in the members map. -/
theorem malformed_text_kills_loop :
    runOp stA (Op.message "r" "A" (Inbound.malformed "hello")) noFail =
      ⟨stA, [], LoopRes.fatal⟩ ∧
    lookupRoom stA "r" = some rA :=
  ⟨by decide, by decide⟩

/-- Claim C2 counterexample: from the reachable, invariant-satisfying registry
`stAB` (host `A`, members `A`, `B`), host `A` sends `kick` with
`kickId = "A"`. The kick succeeds, `A` is removed from the members map, no
re-election happens, and the room is left with non-empty members `["B"]` but
host `"A" ∉ ["B"]`: the claimed invariant is not preserved by a kick naming
the host's own id. -/
theorem selfKick_leaves_host_outside :
    Inv stAB ∧
    lookupRoom (runOp stAB (Op.message "r" "A"
      (Inbound.decoded "k" dKickA)) noFail).st "r" = some ⟨["B"], "A", "", false⟩ ∧
    (Room.users ⟨["B"], "A", "", false⟩ ≠ [] ∧
      Room.host ⟨["B"], "A", "", false⟩ ∉ Room.users ⟨["B"], "A", "", false⟩) :=
  ⟨invAB, by decide, by decide⟩

/-- Claim C2 (amended): host membership (`host ∈ members` whenever `members`
is non-empty) is preserved by every operation — join, any message, disconnect
cleanup — from any registry satisfying the invariant, provided no send fails
during the operation and a kick does not name the sender's own id. -/
theorem hostMembership_preserved (st : Registry) (op : Op) (fails : String → Bool)
    (hinv : Inv st) (hf : ∀ u, fails u = false) (hk : NoSelfKick op) :
    ∀ rid r, lookupRoom (runOp st op fails).st rid = some r →
      r.users ≠ [] → r.host ∈ r.users :=
  fun rid r h _ => ((runOp_preserves_inv st op fails hinv hf hk).2 rid r h).2

theorem hostMembership_preserved_witness :
    lookupRoom (runOp stAB (Op.disconnect "r" "B") noFail).st "r" = some rA ∧
    rA.host ∈ rA.users :=
  ⟨by decide,
   hostMembership_preserved stAB (Op.disconnect "r" "B") noFail invAB
     (fun _ => rfl) True.intro "r" rA (by decide) (by decide)⟩

/-- Claim C3 counterexample: from the reachable, invariant-satisfying registry
`stA` (sole member and host `A`), `A` sends a `chat`; the broadcast includes
the sender, the send to `A` raises, and `broadcast` lazily deletes `A`. The
room stays in the registry with zero members, contradicting the claim. -/
theorem failedBroadcast_leaves_empty_room :
    Inv stA ∧
    lookupRoom (runOp stA (Op.message "r" "A"
      (Inbound.decoded "c" dChatHi)) allFail).st "r" = some ⟨[], "A", "", false⟩ :=
  ⟨invA, by decide⟩

/-- Claim C3 (amended): every room present in the registry keeps at least one
member across every operation — join, any message, disconnect cleanup — from
any registry satisfying the invariant, provided no send fails during the
operation and a kick does not name the sender's own id. -/
theorem registryRooms_nonempty_preserved (st : Registry) (op : Op)
    (fails : String → Bool) (hinv : Inv st) (hf : ∀ u, fails u = false)
    (hk : NoSelfKick op) :
    ∀ rid r, lookupRoom (runOp st op fails).st rid = some r → r.users ≠ [] :=
  fun rid r h => ((runOp_preserves_inv st op fails hinv hf hk).2 rid r h).1

theorem registryRooms_nonempty_preserved_witness :
    lookupRoom (runOp stAB (Op.join "r" "C") noFail).st "r" = some rABC ∧
    rABC.users ≠ [] :=
  ⟨by decide,
   registryRooms_nonempty_preserved stAB (Op.join "r" "C") noFail invAB
     (fun _ => rfl) True.intro "r" rABC (by decide)⟩

/-- Claim C4: when the host disconnects and other members remain, the new
host is `next(iter(room["users"]))` after the deletion, i.e. the earliest
joined remaining member (the head of the insertion-ordered member list with
the departed host erased). Holds for any send-failure pattern, since the
`user-left` broadcast after promotion cannot change the host field. -/
theorem newHost_is_earliest_remaining (st : Registry) (rid uid : String)
    (fails : String → Bool) (r : Room)
    (hl : lookupRoom st rid = some r) (hhost : uid = r.host)
    (hmem : uid ∈ r.users) (hne : r.users.erase uid ≠ []) :
    ∃ r', lookupRoom (handleDisconnect st rid uid fails).1 rid = some r' ∧
      some r'.host = (r.users.erase uid).head? := by
  unfold handleDisconnect
  rw [hl]
  dsimp only
  rw [if_pos hmem, if_pos hhost]
  cases herase : r.users.erase uid with
  | nil => exact absurd herase hne
  | cons h t =>
      dsimp only
      have hl1 : lookupRoom (setRoom st rid { r with users := h :: t, host := h }) rid =
          some { r with users := h :: t, host := h } := by
        rw [lookupRoom_setRoom]
        simp
      exact ⟨_, broadcast_fst_lookup_self _ rid _ none fails _ hl1, by simp⟩

theorem newHost_is_earliest_remaining_witness :
    ∃ r', lookupRoom (handleDisconnect stABC "r" "A" noFail).1 "r" = some r' ∧
      some r'.host = (rABC.users.erase "A").head? :=
  newHost_is_earliest_remaining stABC "r" "A" noFail rABC
    (by decide) (by decide) (by decide) (by decide)

/-- Claim C5: a join attempt by a non-host on a locked room emits exactly the
`error` payload to the joiner followed by a close of the joiner's connection,
and leaves the whole registry (hence the room's members) untouched; no
`user-joined` broadcast is sent to anyone. -/
theorem locked_room_rejects_nonhost (st : Registry) (rid uid : String)
    (fails : String → Bool) (r : Room) (hl : lookupRoom st rid = some r)
    (hlock : r.locked = true) (hne : uid ≠ r.host) :
    connect st rid uid fails =
      (st, [Event.sent uid (Msg.errorMsg "Room is locked"), Event.closed uid]) := by
  unfold connect
  rw [hl]
  dsimp only
  unfold joinRoom
  rw [if_pos ⟨hlock, hne⟩]

theorem locked_room_rejects_nonhost_witness :
    connect stLocked "r" "D" noFail =
      (stLocked, [Event.sent "D" (Msg.errorMsg "Room is locked"), Event.closed "D"]) :=
  locked_room_rejects_nonhost stLocked "r" "D" noFail rLocked
    (by decide) (by decide) (by decide)

/-- Claim C6 counterexample: host `A` kicks member `B` from the two-member
room. The room persists (members `["A"]`), yet the `user-left` payload
broadcast for the kick is `Msg.userLeft "B" none`: it carries no host field,
contradicting the claim that every `user-left` broadcast while the room
persists carries the current host id. -/
theorem kick_userLeft_lacks_host :
    (runOp stAB (Op.message "r" "A" (Inbound.decoded "k" dKickB)) noFail).events =
      [Event.sent "B" Msg.kicked, Event.closed "B",
       Event.sent "A" (Msg.userLeft "B" none)] ∧
    lookupRoom (runOp stAB (Op.message "r" "A"
      (Inbound.decoded "k" dKickB)) noFail).st "r" = some rA :=
  ⟨by decide, by decide⟩

/-- Claim C6 (amended): every `user-left` event emitted by the disconnect
cleanup path while the room persists carries both the departed `userId` and
the current (possibly newly promoted) host id; the `user-left` broadcast
after a successful kick instead carries only `userId`, with no host field. -/
theorem disconnect_userLeft_carries_host (st : Registry) (rid uid : String)
    (fails : String → Bool) (r : Room) (hl : lookupRoom st rid = some r)
    (hmem : uid ∈ r.users) (hne : r.users.erase uid ≠ []) :
    ∃ hst r', lookupRoom (handleDisconnect st rid uid fails).1 rid = some r' ∧
      r'.host = hst ∧
      ∀ e ∈ (handleDisconnect st rid uid fails).2, ∃ v,
        e = Event.sent v (Msg.userLeft uid (some hst)) := by
  unfold handleDisconnect
  rw [hl]
  dsimp only
  rw [if_pos hmem]
  by_cases hhost : uid = r.host
  · rw [if_pos hhost]
    cases herase : r.users.erase uid with
    | nil => exact absurd herase hne
    | cons h t =>
        dsimp only
        have hl1 : lookupRoom (setRoom st rid { r with users := h :: t, host := h }) rid =
            some { r with users := h :: t, host := h } := by
          rw [lookupRoom_setRoom]
          simp
        refine ⟨h, _, broadcast_fst_lookup_self _ rid _ none fails _ hl1, by simp, ?_⟩
        exact broadcast_events_form _ rid _ none fails
  · rw [if_neg hhost]
    have hl1 : lookupRoom (setRoom st rid { r with users := r.users.erase uid }) rid =
        some { r with users := r.users.erase uid } := by
      rw [lookupRoom_setRoom]
      simp
    refine ⟨r.host, _, broadcast_fst_lookup_self _ rid _ none fails _ hl1, by simp, ?_⟩
    exact broadcast_events_form _ rid _ none fails

theorem disconnect_userLeft_carries_host_witness :
    ∃ hst r', lookupRoom (handleDisconnect stAB "r" "B" noFail).1 "r" = some r' ∧
      r'.host = hst ∧
      ∀ e ∈ (handleDisconnect stAB "r" "B" noFail).2, ∃ v,
        e = Event.sent v (Msg.userLeft "B" (some hst)) :=
  disconnect_userLeft_carries_host stAB "r" "B" noFail rAB
    (by decide) (by decide) (by decide)

/-- Claim C7: an `unlock-room` message from the host of an already unlocked
room leaves the registry exactly as it was (members, host, locked, password
all unchanged), broadcasts `room-locked` with `locked=false` to every member
in order, and — since the state is a fixed point — iterating the operation
any number of times leaves the state unchanged each time. Send failures are
excluded, since a failing member would be lazily removed by the broadcast. -/
theorem unlock_when_unlocked_idempotent (st : Registry) (rid uid : String)
    (fails : String → Bool) (r : Room) (raw : String) (d : Data)
    (hl : lookupRoom st rid = some r) (hhost : uid = r.host)
    (hunlocked : r.locked = false) (ht : d.type? = some "unlock-room")
    (hf : ∀ u ∈ r.users, fails u = false) :
    runOp st (Op.message rid uid (Inbound.decoded raw d)) fails =
      ⟨st, r.users.map (fun u => Event.sent u (Msg.roomLocked false)), LoopRes.ok⟩ ∧
    ∀ n : Nat,
      (fun s => (runOp s (Op.message rid uid (Inbound.decoded raw d)) fails).st)^[n] st
        = st := by
  have hmain : runOp st (Op.message rid uid (Inbound.decoded raw d)) fails =
      ⟨st, r.users.map (fun u => Event.sent u (Msg.roomLocked false)), LoopRes.ok⟩ := by
    show handleMessage st rid uid (Inbound.decoded raw d) fails = _
    unfold handleMessage
    dsimp only
    rw [hl]
    dsimp only
    rw [ht]
    dsimp only
    rw [if_neg (by decide), if_neg (by decide), if_neg (by decide),
      if_neg (by decide), if_pos rfl]
    unfold unlockStep
    rw [if_pos hhost]
    have hre : ({ r with locked := false } : Room) = r := by
      cases r
      simp_all
    rw [hre, setRoom_lookup_eq st rid r hl]
    unfold toStep
    rw [broadcast_noFails st rid (Msg.roomLocked false) fails r hl hf]
  refine ⟨hmain, ?_⟩
  intro n
  induction n with
  | zero => rfl
  | succ n ih => rw [Function.iterate_succ_apply', ih, hmain]

theorem unlock_when_unlocked_idempotent_witness :
    runOp stA (Op.message "r" "A" (Inbound.decoded "u" dUnlock)) noFail =
      ⟨stA, rA.users.map (fun u => Event.sent u (Msg.roomLocked false)), LoopRes.ok⟩ ∧
    (fun s => (runOp s (Op.message "r" "A" (Inbound.decoded "u" dUnlock)) noFail).st)^[3] stA
      = stA :=
  ⟨(unlock_when_unlocked_idempotent stA "r" "A" noFail rA "u" dUnlock
      (by decide) (by decide) (by decide) (by decide) (fun u _ => rfl)).1,
   (unlock_when_unlocked_idempotent stA "r" "A" noFail rA "u" dUnlock
      (by decide) (by decide) (by decide) (by decide) (fun u _ => rfl)).2 3⟩

/-- Claim C8: a `set-password` message from a user who is not the room's host
is silently dropped: the registry (hence `locked` and `password`) is exactly
unchanged, no event is emitted to anyone (in particular no `room-locked`
broadcast and no error to the sender), and the loop continues. -/
theorem nonhost_setPassword_dropped (st : Registry) (rid uid : String)
    (fails : String → Bool) (r : Room) (raw : String) (d : Data)
    (hl : lookupRoom st rid = some r) (hne : uid ≠ r.host)
    (ht : d.type? = some "set-password") :
    runOp st (Op.message rid uid (Inbound.decoded raw d)) fails =
      ⟨st, [], LoopRes.ok⟩ := by
  show handleMessage st rid uid (Inbound.decoded raw d) fails = _
  unfold handleMessage
  dsimp only
  rw [hl]
  dsimp only
  rw [ht]
  dsimp only
  rw [if_neg (by decide), if_neg (by decide), if_neg (by decide), if_pos rfl]
  unfold setPasswordStep
  rw [if_neg hne]

theorem nonhost_setPassword_dropped_witness :
    runOp stAB (Op.message "r" "B" (Inbound.decoded "s" dSetPw)) noFail =
      ⟨stAB, [], LoopRes.ok⟩ :=
  nonhost_setPassword_dropped stAB "r" "B" noFail rAB "s" dSetPw
    (by decide) (by decide) (by decide)

/-- Claim C9: an `offer`, `answer` or `ice-candidate` message addressed to a
member `tgt` whose connection accepts the send is forwarded as the raw
envelope, unmodified, to `tgt` only: the event trace is exactly one send to
`tgt`, so no other member's connection receives anything, and the registry is
unchanged. -/
theorem relay_delivered_only_to_target (st : Registry) (rid uid tgt : String)
    (fails : String → Bool) (r : Room) (raw : String) (d : Data) (t : String)
    (hl : lookupRoom st rid = some r) (ht : d.type? = some t)
    (hrelay : t = "offer" ∨ t = "answer" ∨ t = "ice-candidate")
    (htgt : d.target? = some tgt) (hmem : tgt ∈ r.users)
    (hok : fails tgt = false) :
    runOp st (Op.message rid uid (Inbound.decoded raw d)) fails =
      ⟨st, [Event.sent tgt (Msg.relay raw)], LoopRes.ok⟩ ∧
    ∀ c m, Event.sent c m ∈
        (runOp st (Op.message rid uid (Inbound.decoded raw d)) fails).events →
      c = tgt ∧ m = Msg.relay raw := by
  have hmain : runOp st (Op.message rid uid (Inbound.decoded raw d)) fails =
      ⟨st, [Event.sent tgt (Msg.relay raw)], LoopRes.ok⟩ := by
    show handleMessage st rid uid (Inbound.decoded raw d) fails = _
    unfold handleMessage
    dsimp only
    rw [hl]
    dsimp only
    rw [ht]
    dsimp only
    rw [if_pos hrelay]
    unfold relayStep
    rw [htgt]
    dsimp only
    unfold toStep
    rw [sendToUser_delivered st rid tgt (Msg.relay raw) fails r hl hmem hok]
  refine ⟨hmain, ?_⟩
  intro c m hm
  rw [hmain] at hm
  simp at hm
  exact hm

theorem relay_delivered_only_to_target_witness :
    runOp stABC (Op.message "r" "A" (Inbound.decoded "rawice" dIceToB)) noFail =
      ⟨stABC, [Event.sent "B" (Msg.relay "rawice")], LoopRes.ok⟩ ∧
    ∀ c m, Event.sent c m ∈
        (runOp stABC (Op.message "r" "A" (Inbound.decoded "rawice" dIceToB)) noFail).events →
      c = "B" ∧ m = Msg.relay "rawice" :=
  relay_delivered_only_to_target stABC "r" "A" "B" noFail rABC "rawice" dIceToB
    "ice-candidate" (by decide) (by decide) (by decide) (by decide) (by decide) rfl

/-- Claim C10: running the disconnect cleanup for a user id that is not a
member of the room (or whose room id is absent) returns the registry exactly
unchanged and emits no event: no `user-left` broadcast, no promotion, no
deletion. -/
theorem disconnect_unknown_user_noop (st : Registry) (rid uid : String)
    (fails : String → Bool)
    (h : ∀ r, lookupRoom st rid = some r → uid ∉ r.users) :
    handleDisconnect st rid uid fails = (st, []) := by
  unfold handleDisconnect
  cases hl : lookupRoom st rid with
  | none => rfl
  | some room =>
      dsimp only
      rw [if_neg (h room hl)]

theorem disconnect_unknown_user_noop_witness :
    handleDisconnect stAB "r" "Z" noFail = (stAB, []) :=
  disconnect_unknown_user_noop stAB "r" "Z" noFail (by
    intro r hr
    rw [show lookupRoom stAB "r" = some rAB from by decide] at hr
    cases hr
    decide)

end Signaling
